import Mathlib

/-!
Verification development for the `salvo` flight monitor (`monitor.py`).

The program polls ADS-B providers for aircraft near a configured point,
filters for nearby low-altitude aircraft, and sends deduplicated Telegram
notifications with a quiet-period suppression state persisted to a JSON file.

Modelling conventions:
* Python floats are modelled as exact rationals (`ℚ`); all the properties at
  stake are order comparisons, which floats decide exactly on the values the
  comparisons are written over (`RADIUS_KM + 0.5`, thresholds, etc.).
* `haversine_km` is transcendental (`math.sin`/`math.asin`); the filter is
  therefore parameterised by the distance function `hav`, and every theorem
  holds for an arbitrary `hav`, in particular for the real haversine.
* Timestamps handled by the alert decider are modelled as integer seconds
  since an epoch (`ℤ`); `timedelta(minutes=m)` becomes `m * 60` seconds and
  datetime subtraction/comparison becomes integer subtraction/comparison.
* The persisted state file is modelled structurally (`FileContent`), and the
  relevant fragment of Python's `datetime.isoformat` / `fromisoformat` is
  embedded over a structural datetime type `DT`.
* Exceptions are modelled with `Except`; an exception handler becomes a
  `match` on the `Except` value.
* A JSON/ADS-B field that is absent or non-numeric is modelled as `none`
  (the code guards numeric fields with `isinstance(..., (int, float))`).
-/

namespace Salvo

/-- One aircraft snapshot as returned by the ADS-B provider (the `ac` dict).
Only the fields the core logic reads are modelled. Numeric fields are `none`
when absent or non-numeric (mirroring the `isinstance` guards); string fields
are `none` when absent. -/
structure AC where
  lat : Option ℚ
  lon : Option ℚ
  alt_baro : Option ℚ
  alt_geom : Option ℚ
  call : Option String
  flight : Option String
  r : Option String
  icao : Option String
  hex : Option String
deriving DecidableEq

/-- `RADIUS_KM = 40.0` (monitor.py line 18). -/
def RADIUS_KM : ℚ := 40

/-- `ALT_THRESHOLD_M = 2000.0` (line 19). -/
def ALT_THRESHOLD_M : ℚ := 2000

/-- `QUIET_MINUTES = 10` (line 20). -/
def QUIET_MINUTES : ℤ := 10

/-- `feet_to_m(ft) = ft * 0.3048` (line 36). -/
def feet_to_m (ft : ℚ) : ℚ := ft * (3048 / 10000)

/-- `get_altitude_m` (lines 262-268): barometric altitude if numeric, else
geometric altitude if numeric, else `None`; converted feet → metres. -/
def get_altitude_m (ac : AC) : Option ℚ :=
  match ac.alt_baro with
  | some v => some (feet_to_m v)
  | none =>
    match ac.alt_geom with
    | some v => some (feet_to_m v)
    | none => none

/-- Python `a or b` on strings: first truthy (non-empty) operand. -/
def pyOr (a b : String) : String := if a = "" then b else a

/-- `ac.get(f) or ""`: the field's value, or the empty string when absent. -/
def optStr (o : Option String) : String := o.getD ""

/-- Python `str.upper()` (ASCII range suffices for ADS-B identifiers). -/
def strUpper (s : String) : String := String.mk (s.data.map Char.toUpper)

/-- Python `str.strip()`: drop leading and trailing whitespace. -/
def pyStrip (s : String) : String :=
  String.mk
    (((s.data.dropWhile Char.isWhitespace).reverse.dropWhile
        Char.isWhitespace).reverse)

/-- `identify(ac)` (lines 270-276): produces the display label and the
dedup identity key (`icao or callsign or reg or "unknown"`, uppercased). -/
def identify (ac : AC) : String × String :=
  let callsign := pyStrip (pyOr (optStr ac.call) (optStr ac.flight))
  let reg := pyStrip (optStr ac.r)
  let icao := pyStrip (pyOr (optStr ac.icao) (optStr ac.hex))
  let label := pyOr callsign (pyOr (if reg = "" then "" else "(" ++ reg ++ ")")
                 (pyOr icao "Sconosciuto"))
  let key := strUpper (pyOr icao (pyOr callsign (pyOr reg "unknown")))
  (label, key)

/-- One entry of the `eligible` list: the `(dist_km, alt_m, ac)` triple built
at line 329. -/
structure Elig where
  dist : ℚ
  alt : ℚ
  ac : AC
deriving DecidableEq

/-- The per-snapshot body of the eligibility loop (lines 319-329): skip on
missing lat/lon, skip when `dist_km > radius + 0.5`, skip when the resolved
altitude is absent or `>= thresh`; otherwise keep `(dist, alt, ac)`.
`hav` stands for `haversine_km(center_lat, center_lon, ·, ·)`. -/
def eligCheck (hav : ℚ → ℚ → ℚ → ℚ → ℚ) (clat clon radius thresh : ℚ)
    (ac : AC) : Option Elig :=
  match ac.lat, ac.lon with
  | some la, some lo =>
    let d := hav clat clon la lo
    if radius + 1/2 < d then none
    else
      match get_altitude_m ac with
      | none => none
      | some am => if thresh ≤ am then none else some ⟨d, am, ac⟩
  | _, _ => none

/-- The eligibility filter (lines 318-329): the loop over `aircraft`
accumulating the triples that pass `eligCheck`. -/
def eligibleFilter (hav : ℚ → ℚ → ℚ → ℚ → ℚ) (clat clon radius thresh : ℚ)
    (aircraft : List AC) : List Elig :=
  aircraft.filterMap (eligCheck hav clat clon radius thresh)

/-- The in-memory alert state during a run: a Python dict from scoped key to
last-alert timestamp (seconds). Modelled as an association list in insertion
order, which is exactly a Python dict's iteration order. -/
abbrev AlertState := List (String × ℤ)

/-- `state.get(k)` on the dict. -/
def dictGet (st : AlertState) (k : String) : Option ℤ :=
  (st.find? (fun kv => kv.1 = k)).map (fun kv => kv.2)

/-- `state[k] = v` on the dict: update in place if present, else append. -/
def dictSet : AlertState → String → ℤ → AlertState
  | [], k, v => [(k, v)]
  | kv :: rest, k, v =>
    if kv.1 = k then (k, v) :: rest else kv :: dictSet rest k v

/-- The scoped dedup key `f"{place}:{key}"` (line 338). -/
def scopedKey (place : String) (e : Elig) : String :=
  place ++ ":" ++ (identify e.ac).2

/-- The scoped keys of a list of eligible entries, in order. -/
def scopedKeys (place : String) (l : List Elig) : List String :=
  l.map (scopedKey place)

/-- `send_telegram` (lines 177-242), at the level of exception flow. With no
bot token it logs and returns (line 184). Otherwise, for each recipient the
whole delivery block (lines 193-239, photo upload, fallbacks, extra message)
is abstracted as `attempt cid`, which may raise; the surrounding
`except` (line 241) catches any such exception and only logs it, so the
function itself returns normally on every input. -/
def send_telegram (hasToken : Bool) (recipients : List String)
    (attempt : String → Except String Unit) : Except String Unit :=
  if hasToken = false then Except.ok ()
  else
    recipients.foldl
      (fun _ cid =>
        match attempt cid with
        | Except.ok _ => Except.ok ()
        | Except.error _ => Except.ok ())
      (Except.ok ())

/-- Result of the individual-alert loop: final state, `alerted` counter, and
the entries that fired an individual alert, in order. -/
structure LoopOut where
  state : AlertState
  alerted : ℕ
  alerts : List Elig
deriving DecidableEq

/-- The suppression guard `last and (now - last) < quiet` of line 340 for
the scoped key `k`. -/
def quietSkip (quiet now : ℤ) (st : AlertState) (k : String) : Bool :=
  match dictGet st k with
  | some last => decide (now - last < quiet)
  | none => false

/-- The individual-alert loop (lines 334-349). For each eligible entry in
order: skip when its scoped key has a last-alert time within the quiet
window (`last and (now - last) < quiet`, line 340); otherwise call
`send_telegram` — if it returns normally, record `state[scoped_key] = now`
and bump `alerted` (lines 345-347); if it raised, the `except` at line 348
catches and the state is untouched. `oracle e` is the delivery-attempt
outcome for entry `e`, per recipient. -/
def decideLoop (place : String) (quiet now : ℤ) (hasToken : Bool)
    (recips : List String) (oracle : Elig → String → Except String Unit) :
    List Elig → AlertState → LoopOut
  | [], st => ⟨st, 0, []⟩
  | e :: rest, st =>
    if quietSkip quiet now st (scopedKey place e) then
      decideLoop place quiet now hasToken recips oracle rest st
    else
      match send_telegram hasToken recips (oracle e) with
      | Except.ok _ =>
        let out := decideLoop place quiet now hasToken recips oracle rest
          (dictSet st (scopedKey place e) now)
        ⟨out.state, out.alerted + 1, e :: out.alerts⟩
      | Except.error _ => decideLoop place quiet now hasToken recips oracle rest st

/-- The summary payload built at lines 352-370, structurally: eligible count,
the per-aircraft lines for `eligible[:6]` as (label, distance, altitude)
triples, the `+N altri…` remainder when more than 6, and the nearest
aircraft (`eligible[0]`) whose photo and links the summary carries. -/
structure Summary where
  count : ℕ
  shown : List (String × ℚ × ℚ)
  extra : Option ℕ
  nearest : AC
deriving DecidableEq

/-- Builds the summary from the full eligible list (lines 353-370);
`e0` is `eligible[0]`. -/
def mkSummary (eligible : List Elig) (e0 : Elig) : Summary :=
  { count := eligible.length
  , shown := (eligible.take 6).map (fun e => ((identify e.ac).1, e.dist, e.alt))
  , extra := if 6 < eligible.length then some (eligible.length - 6) else none
  , nearest := e0.ac }

/-- Result of one decision run: final state, alert counter, individual
alerts, and the summary when one is sent. -/
structure RunOut where
  state : AlertState
  alerted : ℕ
  alerts : List Elig
  summary : Option Summary
deriving DecidableEq

/-- The alert-decision part of `run_once_for` (lines 334-375): the
individual-alert loop, then — exactly when `alerted == 0 and
len(eligible) > 0` (line 352) — one summary built from the full eligible
list. -/
def runDecide (place : String) (quiet now : ℤ) (hasToken : Bool)
    (recips : List String) (oracle : Elig → String → Except String Unit)
    (eligible : List Elig) (st : AlertState) : RunOut :=
  let out := decideLoop place quiet now hasToken recips oracle eligible st
  let summary : Option Summary :=
    if out.alerted = 0 then
      match eligible with
      | [] => none
      | e0 :: _ => some (mkSummary eligible e0)
    else none
  ⟨out.state, out.alerted, out.alerts, summary⟩

/-- The sorted eligible list of `run_once_for` (lines 318-332): the filter
output sorted ascending by distance (`eligible.sort(key=lambda x: x[0])`;
Python's sort is a stable ascending sort, modelled by `mergeSort`). -/
def run_eligible (hav : ℚ → ℚ → ℚ → ℚ → ℚ) (clat clon : ℚ)
    (aircraft : List AC) : List Elig :=
  (eligibleFilter hav clat clon RADIUS_KM ALT_THRESHOLD_M aircraft).mergeSort
    (fun a b => decide (a.dist ≤ b.dist))

/-- The full in-memory cycle of `run_once_for` (lines 306-377) after the
fetch: filter, sort, decide/notify, with the configured constants.
`quiet = timedelta(minutes=QUIET_MINUTES)` in seconds. -/
def run_once_core (hav : ℚ → ℚ → ℚ → ℚ → ℚ) (place : String)
    (clat clon : ℚ) (hasToken : Bool) (recips : List String)
    (oracle : Elig → String → Except String Unit)
    (aircraft : List AC) (st : AlertState) (now : ℤ) : RunOut :=
  runDecide place (QUIET_MINUTES * 60) now hasToken recips oracle
    (run_eligible hav clat clon aircraft) st

/-- A Python `datetime` value as far as the state file is concerned:
calendar fields plus an optional UTC offset in minutes (`none` = naive,
`some o` = aware with `utcoffset` of `o` minutes). -/
structure DT where
  year : ℕ
  month : ℕ
  day : ℕ
  hour : ℕ
  minute : ℕ
  second : ℕ
  microsecond : ℕ
  off : Option ℤ
deriving DecidableEq

/-- The invariants Python's `datetime` constructor enforces on a tz-aware
value (field ranges; offsets strictly between -24h and +24h, whole
minutes), which the serialisation round-trip relies on. -/
def DT.validAware (d : DT) : Bool :=
  decide (1 ≤ d.year) && decide (d.year ≤ 9999) &&
  decide (1 ≤ d.month) && decide (d.month ≤ 12) &&
  decide (1 ≤ d.day) && decide (d.day ≤ 31) &&
  decide (d.hour ≤ 23) && decide (d.minute ≤ 59) && decide (d.second ≤ 59) &&
  decide (d.microsecond ≤ 999999) &&
  (match d.off with
   | some o => decide (-1440 < o) && decide (o < 1440)
   | none => false)

/-- Zero-padded decimal rendering of `n` to exactly `k` digits (most
significant first), as Python's `%02d`-style formatting inside
`isoformat`. -/
def pad : ℕ → ℕ → List Char
  | 0, _ => []
  | k + 1, n => Nat.digitChar (n / 10 ^ k) :: pad k (n % 10 ^ k)

/-- The `±HH:MM` UTC-offset suffix of `isoformat` (empty for naive). -/
def offChars : Option ℤ → List Char
  | none => []
  | some o =>
    (if o < 0 then '-' else '+') ::
      (pad 2 (o.natAbs / 60) ++ ':' :: pad 2 (o.natAbs % 60))

/-- `datetime.isoformat()` as a character list:
`YYYY-MM-DDTHH:MM:SS[.ffffff][±HH:MM]`, the fraction present exactly when
the microsecond field is non-zero. -/
def isoChars (d : DT) : List Char :=
  pad 4 d.year ++ '-' :: pad 2 d.month ++ '-' :: pad 2 d.day ++
  'T' :: pad 2 d.hour ++ ':' :: pad 2 d.minute ++ ':' :: pad 2 d.second ++
  (if d.microsecond = 0 then [] else '.' :: pad 6 d.microsecond) ++
  offChars d.off

/-- `v.isoformat()` (used at line 64). -/
def isoformat (d : DT) : String := String.mk (isoChars d)

/-- Parses exactly `k` decimal digits, `acc` the value read so far. -/
def parseFixed : ℕ → ℕ → List Char → Option (ℕ × List Char)
  | 0, acc, cs => some (acc, cs)
  | _ + 1, _, [] => none
  | k + 1, acc, c :: cs =>
    if c.isDigit then parseFixed k (10 * acc + (c.toNat - 48)) cs else none

/-- Consumes one expected separator character. -/
def expect (c : Char) : List Char → Option (List Char)
  | [] => none
  | x :: xs => if x = c then some xs else none

/-- The optional `.ffffff` fraction of an ISO timestamp
(absent fraction parses as 0 microseconds). -/
def parseFrac (cs : List Char) : Option (ℕ × List Char) :=
  match cs with
  | [] => some (0, [])
  | c :: rest => if c = '.' then parseFixed 6 0 rest else some (0, cs)

/-- The optional trailing `±HH:MM` UTC offset of an ISO timestamp;
`some none` when the input ends (naive datetime). -/
def parseOff (cs : List Char) : Option (Option ℤ) :=
  match cs with
  | [] => some none
  | c :: rest =>
    if c = '+' ∨ c = '-' then
      match parseFixed 2 0 rest with
      | none => none
      | some (hh, cs1) =>
        match expect ':' cs1 with
        | none => none
        | some cs2 =>
          match parseFixed 2 0 cs2 with
          | none => none
          | some (mm, cs3) =>
            if cs3 = [] then
              some (some (if c = '-' then -((hh : ℤ) * 60 + mm)
                          else ((hh : ℤ) * 60 + mm)))
            else none
    else none

/-- The fragment of `datetime.fromisoformat` (used at line 54) that accepts
`isoformat` output: fixed-position date, `T`, fixed-position time, optional
6-digit fraction, optional `±HH:MM` offset, end of input. Any other shape
raises in Python, i.e. yields `none` here. -/
def parseISO (cs : List Char) : Option DT :=
  (parseFixed 4 0 cs).bind fun p1 =>
  (expect '-' p1.2).bind fun cs1 =>
  (parseFixed 2 0 cs1).bind fun p2 =>
  (expect '-' p2.2).bind fun cs2 =>
  (parseFixed 2 0 cs2).bind fun p3 =>
  (expect 'T' p3.2).bind fun cs3 =>
  (parseFixed 2 0 cs3).bind fun p4 =>
  (expect ':' p4.2).bind fun cs4 =>
  (parseFixed 2 0 cs4).bind fun p5 =>
  (expect ':' p5.2).bind fun cs5 =>
  (parseFixed 2 0 cs5).bind fun p6 =>
  (parseFrac p6.2).bind fun p7 =>
  (parseOff p7.2).bind fun off =>
  some ⟨p1.1, p2.1, p3.1, p4.1, p5.1, p6.1, p7.1, off⟩

/-- `datetime.fromisoformat(v)`, `none` when it raises. -/
def fromisoformat (s : String) : Option DT := parseISO s.data

/-- What `load_state` finds on disk: no file (line 46), a file whose
top-level structure cannot be read as a JSON string-to-string mapping
(any exception caught at line 58), or a mapping of raw entries. A value
that is not a string behaves like an unparseable timestamp (dropped),
so entries are modelled as string pairs. -/
inductive FileContent
  | missing
  | corrupt
  | mapping (entries : List (String × String))

/-- `load_state` (lines 45-59): missing file or corrupt structure yield the
empty state; otherwise each entry parses via `fromisoformat`, entries whose
value raises being silently dropped (lines 52-56). -/
def load_state (fc : FileContent) : List (String × DT) :=
  match fc with
  | FileContent.missing => []
  | FileContent.corrupt => []
  | FileContent.mapping raw =>
    raw.filterMap (fun kv => (fromisoformat kv.2).map (fun d => (kv.1, d)))

/-- `save_state` (lines 61-66), successful write: the file then holds the
JSON dump of `{k: v.isoformat()}`. -/
def save_state (st : List (String × DT)) : FileContent :=
  FileContent.mapping (st.map (fun kv => (kv.1, isoformat kv.2)))

/-- `_truncate_caption` (lines 153-157): non-empty captions longer than
`limit` become `caption[:limit-1] + "…"`; everything else passes through. -/
def truncate_caption (caption : String) (limit : ℕ) : String :=
  if caption.data ≠ [] ∧ limit < caption.data.length then
    String.mk (caption.data.take (limit - 1) ++ ['…'])
  else caption

/-- Python `s.split(",")` on the underlying characters: boundaries at each
comma, so the empty string yields one empty field. -/
def splitCommaChars : List Char → List (List Char)
  | [] => [[]]
  | c :: rest =>
    if c = ',' then [] :: splitCommaChars rest
    else
      match splitCommaChars rest with
      | [] => [[c]]
      | g :: gs => (c :: g) :: gs

/-- Python `s.split(",")`. -/
def splitComma (s : String) : List String :=
  (splitCommaChars s.data).map String.mk

/-- The candidate recipient list built at lines 160-167: the configured
primary chat id when truthy, then the hard-coded `"5278987817"`, then the
comma-separated extras, stripped, empties dropped. `chatId = none` models
an unset `TELEGRAM_CHAT_ID` environment variable. -/
def rawRecipients (chatId : Option String) (extraRaw : String) : List String :=
  (match chatId with
   | some c => if c = "" then [] else [c]
   | none => []) ++
  ["5278987817"] ++
  (((splitComma extraRaw).map pyStrip).filter (fun x => x ≠ ""))

/-- The dedup loop at lines 169-174: keep the first occurrence of each id,
`seen` the ids already emitted. -/
def dedupFirst : List String → List String → List String
  | [], _ => []
  | c :: rest, seen =>
    if c ∈ seen then dedupFirst rest seen
    else c :: dedupFirst rest (c :: seen)

/-- `_telegram_recipients` (lines 159-175). -/
def telegram_recipients (chatId : Option String) (extraRaw : String) :
    List String :=
  dedupFirst (rawRecipients chatId extraRaw) []

/-! Concrete inputs used to exercise the theorems below on closed runs. -/

/-- A snapshot with callsign `AZ123`, hex `abc1`, barometric altitude
1000 ft; identity key `ABC1`. -/
def acW : AC :=
  ⟨some 42, some 14, some 1000, none, some "AZ123", none, none,
    some "abc1", none⟩

/-- A snapshot with only geometric altitude 500 ft and hex `cafe1`;
identity key `CAFE1`. -/
def acX : AC :=
  ⟨some 41, some 14, none, some 500, none, none, some "I-ABCD", none,
    some "cafe1"⟩

/-- A snapshot at latitude 20 used for the sorting scenario. -/
def acN : AC :=
  ⟨some 20, some 14, none, some 500, none, none, none, none, some "cafe1"⟩

/-- A snapshot at latitude 30 used for the sorting scenario. -/
def acM : AC :=
  ⟨some 30, some 14, some 1000, none, some "AZ123", none, none,
    some "abc1", none⟩

/-- Eligible entry for `acW` at 10 km / 300 m. -/
def eligW1 : Elig := ⟨10, 300, acW⟩

/-- Eligible entry for `acX` at 12 km / 150 m. -/
def eligW2 : Elig := ⟨12, 150, acX⟩

/-- A farther duplicate of `acW`: same identity key `ABC1`. -/
def eligW1b : Elig := ⟨15, 400, acW⟩

/-- A delivery oracle in which every attempt raises. -/
def oracleFail : Elig → String → Except String Unit :=
  fun _ _ => Except.error "HTTPError"

/-- A delivery oracle in which every attempt succeeds. -/
def oracleOk : Elig → String → Except String Unit :=
  fun _ _ => Except.ok ()

/-- Seven suppressed entries sharing the key `ABC1` (distances 1..7). -/
def elig7 : List Elig :=
  [⟨1, 300, acW⟩, ⟨2, 300, acW⟩, ⟨3, 300, acW⟩, ⟨4, 300, acW⟩,
   ⟨5, 300, acW⟩, ⟨6, 300, acW⟩, ⟨7, 300, acW⟩]

/-- A distance function returning the snapshot's latitude, used to make
concrete distances easy to read off. -/
def havW : ℚ → ℚ → ℚ → ℚ → ℚ := fun _ _ la _ => la

/-- The eligible entry the filter derives from `acN` under `havW`. -/
def eligN : Elig := ⟨20, 762/5, acN⟩

/-- The eligible entry the filter derives from `acM` under `havW`. -/
def eligM : Elig := ⟨30, 1524/5, acM⟩

/-- A state suppressing both scenario keys at time 1000. -/
def stC6 : AlertState := [("P:ABC1", 1000), ("P:CAFE1", 1000)]

/-- `2024-01-01T00:00:00+00:00` as a `DT` value. -/
def dtUTC : DT := ⟨2024, 1, 1, 0, 0, 0, 0, some 0⟩

/-- A one-entry alert state carrying `dtUTC`. -/
def stateW : List (String × DT) := [("Isernia:ABC1", dtUTC)]

/-- A 1025-character caption. -/
def bigCaption : String := String.mk (List.replicate 1025 'a')

/-! ## Helper lemmas -/

/-- `send_telegram` returns normally on every input: each per-recipient
delivery attempt is wrapped in its own exception handler. -/
theorem send_telegram_ok (h : Bool) (r : List String)
    (a : String → Except String Unit) :
    send_telegram h r a = Except.ok () := by
  have aux : ∀ (l : List String) (init : Except String Unit),
      init = Except.ok () →
      l.foldl
        (fun _ cid =>
          match a cid with
          | Except.ok _ => Except.ok ()
          | Except.error _ => Except.ok ()) init = Except.ok () := by
    intro l
    induction l with
    | nil => intro init hinit; simpa using hinit
    | cons c cs ih =>
      intro init hinit
      rw [List.foldl_cons]
      apply ih
      cases a c <;> rfl
  cases h with
  | false => rfl
  | true =>
    unfold send_telegram
    simpa using aux r (Except.ok ()) rfl

theorem dictGet_dictSet_self (st : AlertState) (k : String) (v : ℤ) :
    dictGet (dictSet st k v) k = some v := by
  induction st with
  | nil => simp [dictSet, dictGet, List.find?]
  | cons kv rest ih =>
    by_cases h : kv.1 = k
    · simp [dictSet, h, dictGet, List.find?]
    · simp only [dictSet, if_neg h]
      simpa [dictGet, List.find?_cons, h] using ih

theorem dictGet_dictSet_ne (st : AlertState) (k' k : String) (v : ℤ)
    (hne : k' ≠ k) : dictGet (dictSet st k' v) k = dictGet st k := by
  induction st with
  | nil => simp [dictSet, dictGet, List.find?, hne]
  | cons kv rest ih =>
    by_cases h : kv.1 = k'
    · simp [dictSet, h, dictGet, List.find?_cons, hne]
    · simp only [dictSet, if_neg h]
      simp only [dictGet, List.find?_cons] at ih ⊢
      by_cases hk : kv.1 = k
      · simp [hk]
      · simpa [hk] using ih

section DecideLemmas

variable (place : String) (quiet now : ℤ) (hasToken : Bool)
  (recips : List String) (oracle : Elig → String → Except String Unit)

/-- A key whose last alert is inside the quiet window when the loop starts
never fires an individual alert during the loop. -/
theorem decideLoop_suppressed (k : String) (T : ℤ) (l : List Elig)
    (st : AlertState) (hget : dictGet st k = some T)
    (hlt : now - T < quiet) :
    k ∉ scopedKeys place
      (decideLoop place quiet now hasToken recips oracle l st).alerts := by
  induction l generalizing st with
  | nil => simp [decideLoop, scopedKeys]
  | cons e rest ih =>
    rw [decideLoop]
    by_cases hq : quietSkip quiet now st (scopedKey place e) = true
    · rw [if_pos hq]
      exact ih st hget
    · have hek : scopedKey place e ≠ k := by
        intro hk
        exact hq (by simp [quietSkip, hk, hget, hlt])
      rw [if_neg hq, send_telegram_ok]
      simp only [scopedKeys, List.map_cons, List.mem_cons, not_or]
      refine ⟨fun hk => hek hk.symm, ?_⟩
      have hget' :
          dictGet (dictSet st (scopedKey place e) now) k = some T := by
        rw [dictGet_dictSet_ne _ _ _ _ hek]; exact hget
      simpa [scopedKeys] using ih (dictSet st (scopedKey place e) now) hget'

/-- Setting a different key leaves the suppression guard unchanged. -/
theorem quietSkip_dictSet_ne (st : AlertState) (k' k : String) (v : ℤ)
    (hne : k' ≠ k) :
    quietSkip quiet now (dictSet st k' v) k = quietSkip quiet now st k := by
  unfold quietSkip
  rw [dictGet_dictSet_ne _ _ _ _ hne]

/-- A key not suppressed at loop start that occurs among the eligible
entries fires an individual alert. -/
theorem decideLoop_allowed (k : String) (l : List Elig) (st : AlertState)
    (hallow : quietSkip quiet now st k = false)
    (hocc : k ∈ scopedKeys place l) :
    k ∈ scopedKeys place
      (decideLoop place quiet now hasToken recips oracle l st).alerts := by
  induction l generalizing st with
  | nil => simp [scopedKeys] at hocc
  | cons e rest ih =>
    rw [decideLoop]
    by_cases hek : scopedKey place e = k
    · have hq : quietSkip quiet now st (scopedKey place e) = false := by
        rw [hek]; exact hallow
      rw [if_neg (by simp [hq]), send_telegram_ok]
      simp [scopedKeys, hek]
    · have hocc' : k ∈ scopedKeys place rest := by
        rcases (by simpa [scopedKeys] using hocc : k = scopedKey place e ∨
          ∃ a ∈ rest, scopedKey place a = k) with h | h
        · exact absurd h.symm hek
        · simpa [scopedKeys] using h
      by_cases hq : quietSkip quiet now st (scopedKey place e) = true
      · rw [if_pos hq]
        exact ih st hallow hocc'
      · rw [if_neg hq, send_telegram_ok]
        have hallow' :
            quietSkip quiet now (dictSet st (scopedKey place e) now) k
              = false := by
          rw [quietSkip_dictSet_ne quiet now st _ _ _ hek]; exact hallow
      -- the alert list is e followed by the recursive alerts
        simp only [scopedKeys, List.map_cons, List.mem_cons]
        exact Or.inr (by
          simpa [scopedKeys] using
            ih (dictSet st (scopedKey place e) now) hallow' hocc')

/-- A key mapped to `now` stays mapped to `now` across the loop. -/
theorem decideLoop_state_now (k : String) (l : List Elig) (st : AlertState)
    (hget : dictGet st k = some now) :
    dictGet
      (decideLoop place quiet now hasToken recips oracle l st).state k
      = some now := by
  induction l generalizing st with
  | nil => simpa [decideLoop]
  | cons e rest ih =>
    rw [decideLoop]
    by_cases hq : quietSkip quiet now st (scopedKey place e) = true
    · rw [if_pos hq]; exact ih st hget
    · rw [if_neg hq, send_telegram_ok]
      by_cases hek : scopedKey place e = k
      · exact ih _ (by rw [hek, dictGet_dictSet_self])
      · exact ih _ (by rw [dictGet_dictSet_ne _ _ _ _ hek]; exact hget)

/-- Every key that fired an individual alert is mapped to `now` in the
final state, whatever the delivery outcomes were. -/
theorem decideLoop_alerts_state (k : String) (l : List Elig)
    (st : AlertState)
    (hmem : k ∈ scopedKeys place
      (decideLoop place quiet now hasToken recips oracle l st).alerts) :
    dictGet
      (decideLoop place quiet now hasToken recips oracle l st).state k
      = some now := by
  induction l generalizing st with
  | nil => simp [decideLoop, scopedKeys] at hmem
  | cons e rest ih =>
    rw [decideLoop] at hmem ⊢
    by_cases hq : quietSkip quiet now st (scopedKey place e) = true
    · rw [if_pos hq] at hmem ⊢
      exact ih st hmem
    · rw [if_neg hq, send_telegram_ok] at hmem ⊢
      rcases (by simpa [scopedKeys] using hmem : k = scopedKey place e ∨
          ∃ a ∈ (decideLoop place quiet now hasToken recips oracle rest
              (dictSet st (scopedKey place e) now)).alerts,
            scopedKey place a = k) with h | h
      · exact decideLoop_state_now place quiet now hasToken recips oracle
          k rest _ (by rw [h, dictGet_dictSet_self])
      · exact ih _ (by simpa [scopedKeys] using h)

/-- With a positive quiet period, no scoped key fires twice in one run. -/
theorem decideLoop_nodup (hquiet : 0 < quiet) (l : List Elig)
    (st : AlertState) :
    (scopedKeys place
      (decideLoop place quiet now hasToken recips oracle l st).alerts).Nodup := by
  induction l generalizing st with
  | nil => simp [decideLoop, scopedKeys]
  | cons e rest ih =>
    rw [decideLoop]
    by_cases hq : quietSkip quiet now st (scopedKey place e) = true
    · rw [if_pos hq]; exact ih st
    · rw [if_neg hq, send_telegram_ok]
      simp only [scopedKeys, List.map_cons, List.nodup_cons]
      constructor
      · have := decideLoop_suppressed place quiet now hasToken recips oracle
          (scopedKey place e) now rest (dictSet st (scopedKey place e) now)
          (dictGet_dictSet_self st _ now) (by omega)
        simpa [scopedKeys] using this
      · simpa [scopedKeys] using ih (dictSet st (scopedKey place e) now)

/-- The loop's outcome does not depend on the delivery outcomes: every
attempt is caught inside `send_telegram`. -/
theorem decideLoop_oracle_indep
    (o1 o2 : Elig → String → Except String Unit) (l : List Elig)
    (st : AlertState) :
    decideLoop place quiet now hasToken recips o1 l st
      = decideLoop place quiet now hasToken recips o2 l st := by
  induction l generalizing st with
  | nil => rfl
  | cons e rest ih =>
    rw [decideLoop, decideLoop]
    by_cases hq : quietSkip quiet now st (scopedKey place e) = true
    · rw [if_pos hq, if_pos hq]
      exact ih st
    · rw [if_neg hq, if_neg hq, send_telegram_ok, send_telegram_ok]
      simp only
      rw [ih]

end DecideLemmas

theorem digitChar_isDigit (d : ℕ) (h : d < 10) :
    (Nat.digitChar d).isDigit = true := by
  interval_cases d <;> decide

theorem digitChar_toNat (d : ℕ) (h : d < 10) :
    (Nat.digitChar d).toNat - 48 = d := by
  interval_cases d <;> decide

theorem parseFixed_pad (k acc n : ℕ) (rest : List Char) (h : n < 10 ^ k) :
    parseFixed k acc (pad k n ++ rest) = some (acc * 10 ^ k + n, rest) := by
  induction k generalizing acc n with
  | zero =>
    have : n = 0 := by simpa using h
    simp [pad, parseFixed, this]
  | succ k ih =>
    have hP : 0 < 10 ^ k := Nat.pos_pow_of_pos k (by omega)
    have hd : n / 10 ^ k < 10 := by
      rw [Nat.div_lt_iff_lt_mul hP]
      calc n < 10 ^ (k + 1) := h
        _ = 10 * 10 ^ k := by ring
    have hm : n % 10 ^ k < 10 ^ k := Nat.mod_lt n hP
    rw [pad]
    simp only [List.cons_append, parseFixed, digitChar_isDigit _ hd,
      if_pos, digitChar_toNat _ hd, List.append_eq]
    rw [ih _ _ hm]
    have h1 : n / 10 ^ k * 10 ^ k + n % 10 ^ k = n := by
      have h2 := Nat.div_add_mod n (10 ^ k)
      rw [Nat.mul_comm (10 ^ k) (n / 10 ^ k)] at h2
      exact h2
    have harith : (10 * acc + n / 10 ^ k) * 10 ^ k + n % 10 ^ k
        = acc * 10 ^ (k + 1) + n := by
      calc (10 * acc + n / 10 ^ k) * 10 ^ k + n % 10 ^ k
          = 10 * acc * 10 ^ k + (n / 10 ^ k * 10 ^ k + n % 10 ^ k) := by ring
        _ = 10 * acc * 10 ^ k + n := by rw [h1]
        _ = acc * 10 ^ (k + 1) + n := by ring
    rw [harith]

theorem expect_cons (c : Char) (rest : List Char) :
    expect c (c :: rest) = some rest := by
  simp [expect]

theorem parseFixed_pad0 (k n : ℕ) (rest : List Char) (h : n < 10 ^ k) :
    parseFixed k 0 (pad k n ++ rest) = some (n, rest) := by
  simpa using parseFixed_pad k 0 n rest h

theorem parseFixed_pad_nil (k n : ℕ) (h : n < 10 ^ k) :
    parseFixed k 0 (pad k n) = some (n, []) := by
  simpa using parseFixed_pad k 0 n [] h

theorem parseFrac_not_dot (c : Char) (cs : List Char) (h : ¬c = '.') :
    parseFrac (c :: cs) = some (0, c :: cs) := by
  simp [parseFrac, h]

theorem parseFrac_dot (us : ℕ) (rest : List Char) (h : us < 10 ^ 6) :
    parseFrac ('.' :: (pad 6 us ++ rest)) = some (us, rest) := by
  simp [parseFrac, parseFixed_pad 6 0 us rest h]

theorem parseFrac_offChars (o : ℤ) :
    parseFrac (offChars (some o)) = some (0, offChars (some o)) := by
  unfold offChars
  by_cases hneg : o < 0 <;> simp [parseFrac, hneg]

theorem parseOff_sign (c : Char) (hc : c = '+' ∨ c = '-') (hh mm : ℕ)
    (hhh : hh < 10 ^ 2) (hmm : mm < 10 ^ 2) :
    parseOff (c :: (pad 2 hh ++ ':' :: pad 2 mm)) =
      some (some (if c = '-' then -((hh : ℤ) * 60 + mm)
                  else (hh : ℤ) * 60 + mm)) := by
  have e1 := parseFixed_pad0 2 hh (':' :: pad 2 mm) hhh
  have e2 := parseFixed_pad_nil 2 mm hmm
  simp [parseOff, if_pos hc, e1, e2, expect_cons]

theorem parseOff_offChars (o : ℤ) (h1 : -1440 < o) (h2 : o < 1440) :
    parseOff (offChars (some o)) = some (some o) := by
  have hdiv : o.natAbs / 60 < 10 ^ 2 := by omega
  have hmod : o.natAbs % 60 < 10 ^ 2 := by omega
  by_cases hneg : o < 0
  · simp only [offChars, if_pos hneg]
    rw [parseOff_sign '-' (Or.inr rfl) _ _ hdiv hmod]
    simp only [Option.some.injEq]
    simp only [if_true, reduceIte]
    omega
  · simp only [offChars, if_neg hneg]
    rw [parseOff_sign '+' (Or.inl rfl) _ _ hdiv hmod]
    simp only [Option.some.injEq]
    rw [if_neg (by decide : ¬('+' : Char) = '-')]
    omega

/-- A valid tz-aware datetime survives `isoformat` followed by
`fromisoformat` unchanged. -/
theorem parseISO_isoChars (d : DT) (h : d.validAware = true) :
    parseISO (isoChars d) = some d := by
  obtain ⟨y, mo, dy, hh, mi, ss, us, off⟩ := d
  cases off with
  | none => simp [DT.validAware] at h
  | some o =>
    simp only [DT.validAware, Bool.and_eq_true, decide_eq_true_eq] at h
    have ho1 : -1440 < o := by omega
    have ho2 : o < 1440 := by omega
    have hy : y < 10 ^ 4 := by omega
    have hmo : mo < 10 ^ 2 := by omega
    have hdy : dy < 10 ^ 2 := by omega
    have hhh' : hh < 10 ^ 2 := by omega
    have hmi' : mi < 10 ^ 2 := by omega
    have hss' : ss < 10 ^ 2 := by omega
    have hus' : us < 10 ^ 6 := by omega
    simp only [isoChars, parseISO, List.append_assoc, List.cons_append]
    rw [parseFixed_pad0 4 y _ hy]
    simp only [Option.some_bind]
    rw [expect_cons]
    simp only [Option.some_bind]
    rw [parseFixed_pad0 2 mo _ hmo]
    simp only [Option.some_bind]
    rw [expect_cons]
    simp only [Option.some_bind]
    rw [parseFixed_pad0 2 dy _ hdy]
    simp only [Option.some_bind]
    rw [expect_cons]
    simp only [Option.some_bind]
    rw [parseFixed_pad0 2 hh _ hhh']
    simp only [Option.some_bind]
    rw [expect_cons]
    simp only [Option.some_bind]
    rw [parseFixed_pad0 2 mi _ hmi']
    simp only [Option.some_bind]
    rw [expect_cons]
    simp only [Option.some_bind]
    rw [parseFixed_pad0 2 ss _ hss']
    simp only [Option.some_bind]
    by_cases husz : us = 0
    · subst husz
      simp only [if_pos rfl, if_true, List.nil_append]
      rw [parseFrac_offChars o]
      simp only [Option.some_bind]
      rw [parseOff_offChars o ho1 ho2]
      simp only [Option.some_bind]
    · simp only [if_neg husz, List.cons_append]
      rw [parseFrac_dot us _ hus']
      simp only [Option.some_bind]
      rw [parseOff_offChars o ho1 ho2]
      simp only [Option.some_bind]

/-- String-level version of the round trip. -/
theorem fromisoformat_isoformat (d : DT) (h : d.validAware = true) :
    fromisoformat (isoformat d) = some d := by
  show parseISO (isoChars d) = some d
  exact parseISO_isoChars d h

/-- Full characterisation of the per-snapshot eligibility check. -/
theorem eligCheck_some_iff (hav : ℚ → ℚ → ℚ → ℚ → ℚ)
    (clat clon radius thresh : ℚ) (ac : AC) (e : Elig) :
    eligCheck hav clat clon radius thresh ac = some e ↔
      ∃ la lo am, ac.lat = some la ∧ ac.lon = some lo ∧
        get_altitude_m ac = some am ∧
        hav clat clon la lo ≤ radius + 1/2 ∧ am < thresh ∧
        e = ⟨hav clat clon la lo, am, ac⟩ := by
  constructor
  · intro hsome
    unfold eligCheck at hsome
    rcases hla : ac.lat with _ | la <;> rw [hla] at hsome
    · simp at hsome
    · rcases hlo : ac.lon with _ | lo <;> rw [hlo] at hsome
      · simp at hsome
      · simp only at hsome
        split_ifs at hsome with hd
        rcases halt : get_altitude_m ac with _ | am <;> rw [halt] at hsome
        · simp at hsome
        · simp only [] at hsome
          split_ifs at hsome with ht
          exact ⟨la, lo, am, rfl, rfl, rfl, not_lt.mp hd, not_le.mp ht,
            (Option.some.inj hsome).symm⟩
  · rintro ⟨la, lo, am, hla, hlo, halt, hle, hlt, rfl⟩
    unfold eligCheck
    rw [hla, hlo]
    simp only
    rw [if_neg (not_lt.mpr hle), halt]
    simp only []
    rw [if_neg (not_le.mpr hlt)]

/-- The kept entry's `ac` field is the snapshot itself. -/
theorem eligCheck_ac_eq (hav : ℚ → ℚ → ℚ → ℚ → ℚ)
    (clat clon radius thresh : ℚ) (ac : AC) (e : Elig)
    (h : eligCheck hav clat clon radius thresh ac = some e) : e.ac = ac := by
  rcases (eligCheck_some_iff hav clat clon radius thresh ac e).mp h with
    ⟨la, lo, am, _, _, _, _, _, rfl⟩
  rfl

/-- `dedupFirst` keeps any unseen element of its input. -/
theorem dedupFirst_mem (a : String) (l seen : List String)
    (hmem : a ∈ l) (hseen : a ∉ seen) : a ∈ dedupFirst l seen := by
  induction l generalizing seen with
  | nil => simp at hmem
  | cons c rest ih =>
    rw [dedupFirst]
    by_cases hc : c ∈ seen
    · rw [if_pos hc]
      rcases List.mem_cons.mp hmem with rfl | hmem'
      · exact absurd hc hseen
      · exact ih seen hmem' hseen
    · rw [if_neg hc]
      by_cases hac : a = c
      · exact hac ▸ List.mem_cons_self _ _
      · rcases List.mem_cons.mp hmem with rfl | hmem'
        · exact absurd rfl hac
        · exact List.mem_cons.mpr
            (Or.inr (ih (c :: seen)
              hmem' (by simp [hac, hseen])))

/-- `dedupFirst` emits nothing already seen. -/
theorem dedupFirst_not_seen (l seen : List String) (a : String)
    (ha : a ∈ dedupFirst l seen) : a ∉ seen := by
  induction l generalizing seen with
  | nil => simp [dedupFirst] at ha
  | cons c rest ih =>
    rw [dedupFirst] at ha
    by_cases hc : c ∈ seen
    · rw [if_pos hc] at ha
      exact ih seen ha
    · rw [if_neg hc] at ha
      rcases List.mem_cons.mp ha with rfl | ha'
      · exact hc
      · intro hseen
        exact ih (c :: seen) ha' (List.mem_cons.mpr (Or.inr hseen))

/-- `dedupFirst` output has no duplicates. -/
theorem dedupFirst_nodup (l seen : List String) :
    (dedupFirst l seen).Nodup := by
  induction l generalizing seen with
  | nil => simp [dedupFirst]
  | cons c rest ih =>
    rw [dedupFirst]
    by_cases hc : c ∈ seen
    · rw [if_pos hc]; exact ih seen
    · rw [if_neg hc]
      refine List.nodup_cons.mpr ⟨?_, ih (c :: seen)⟩
      intro hcmem
      exact dedupFirst_not_seen rest (c :: seen) c hcmem
        (List.mem_cons_self _ _)

/-- `dedupFirst` output is a subsequence of its input: first-occurrence
order is preserved. -/
theorem dedupFirst_sublist (l seen : List String) :
    (dedupFirst l seen).Sublist l := by
  induction l generalizing seen with
  | nil => simp [dedupFirst]
  | cons c rest ih =>
    rw [dedupFirst]
    by_cases hc : c ∈ seen
    · rw [if_pos hc]
      exact (ih seen).trans (List.sublist_cons_self c rest)
    · rw [if_neg hc]
      exact List.Sublist.cons₂ c (ih (c :: seen))

/-- If no earlier eligible entry shares its scoped key and the key is not
suppressed at loop start, an entry itself fires an individual alert. -/
theorem decideLoop_first_alerts (place : String) (quiet now : ℤ)
    (hasToken : Bool) (recips : List String)
    (oracle : Elig → String → Except String Unit) (e1 : Elig)
    (pre rest : List Elig) (st : AlertState)
    (hpre : ∀ p ∈ pre, scopedKey place p ≠ scopedKey place e1)
    (hallow : quietSkip quiet now st (scopedKey place e1) = false) :
    e1 ∈ (decideLoop place quiet now hasToken recips oracle
      (pre ++ e1 :: rest) st).alerts := by
  induction pre generalizing st with
  | nil =>
    rw [List.nil_append, decideLoop, if_neg (by simp [hallow]),
      send_telegram_ok]
    exact List.mem_cons_self _ _
  | cons p ps ih =>
    have hp : scopedKey place p ≠ scopedKey place e1 :=
      hpre p (List.mem_cons_self _ _)
    have hps : ∀ q ∈ ps, scopedKey place q ≠ scopedKey place e1 :=
      fun q hq => hpre q (List.mem_cons_of_mem _ hq)
    rw [List.cons_append, decideLoop]
    by_cases hq : quietSkip quiet now st (scopedKey place p) = true
    · rw [if_pos hq]
      exact ih st hps hallow
    · rw [if_neg hq, send_telegram_ok]
      refine List.mem_cons_of_mem _ ?_
      exact ih (dictSet st (scopedKey place p) now) hps
        (by rw [quietSkip_dictSet_ne quiet now st _ _ _ hp]; exact hallow)

/-! ## The claims -/

/-- C1: a snapshot is retained by the eligibility filter iff it has both
latitude and longitude, its distance from the center is at most
`radius + 0.5` (the boundary included), and its resolved altitude
(barometric if present, else geometric) exists and is strictly below the
threshold (the boundary excluded). -/
theorem claim_C1 (hav : ℚ → ℚ → ℚ → ℚ → ℚ) (clat clon radius thresh : ℚ)
    (aircraft : List AC) (ac : AC) (hmem : ac ∈ aircraft) :
    (∃ e ∈ eligibleFilter hav clat clon radius thresh aircraft, e.ac = ac) ↔
      ((∃ la lo, ac.lat = some la ∧ ac.lon = some lo ∧
          hav clat clon la lo ≤ radius + 1/2) ∧
       (∃ am, get_altitude_m ac = some am ∧ am < thresh)) := by
  constructor
  · rintro ⟨e, he, hac⟩
    rw [eligibleFilter, List.mem_filterMap] at he
    obtain ⟨a, _, hsome⟩ := he
    have haeq : a = ac := by
      rw [← eligCheck_ac_eq hav clat clon radius thresh a e hsome, hac]
    subst haeq
    rcases (eligCheck_some_iff hav clat clon radius thresh a e).mp hsome with
      ⟨la, lo, am, h1, h2, h3, h4, h5, rfl⟩
    exact ⟨⟨la, lo, h1, h2, h4⟩, ⟨am, h3, h5⟩⟩
  · rintro ⟨⟨la, lo, hla, hlo, hle⟩, ⟨am, halt, hlt⟩⟩
    refine ⟨⟨hav clat clon la lo, am, ac⟩, ?_, rfl⟩
    rw [eligibleFilter, List.mem_filterMap]
    exact ⟨ac, hmem, (eligCheck_some_iff hav clat clon radius thresh ac
      ⟨hav clat clon la lo, am, ac⟩).mpr
      ⟨la, lo, am, hla, hlo, halt, hle, hlt, rfl⟩⟩

theorem claim_C1_witness :
    ∃ e ∈ eligibleFilter (fun _ _ _ _ => 10) 0 0 40 2000 [acW], e.ac = acW := by
  refine (claim_C1 (fun _ _ _ _ => 10) 0 0 40 2000 [acW] acW (by simp)).mpr ?_
  refine ⟨⟨42, 14, rfl, rfl, by norm_num⟩, ⟨feet_to_m 1000, rfl, ?_⟩⟩
  norm_num [feet_to_m]

/-- C2: a scoped key last alerted at time `T` is suppressed by a decision
run at `now` when `now - T < quiet`, and is allowed to alert (and does,
when it occurs among the eligible entries) when `now - T ≥ quiet`. -/
theorem claim_C2 (place : String) (quiet now : ℤ) (hasToken : Bool)
    (recips : List String) (oracle : Elig → String → Except String Unit)
    (eligible : List Elig) (st : AlertState) (k : String) (T : ℤ)
    (hget : dictGet st k = some T) :
    (now - T < quiet →
      k ∉ scopedKeys place
        (runDecide place quiet now hasToken recips oracle eligible
          st).alerts) ∧
    (quiet ≤ now - T → k ∈ scopedKeys place eligible →
      k ∈ scopedKeys place
        (runDecide place quiet now hasToken recips oracle eligible
          st).alerts) := by
  have halerts : (runDecide place quiet now hasToken recips oracle eligible
      st).alerts
      = (decideLoop place quiet now hasToken recips oracle eligible
          st).alerts := rfl
  constructor
  · intro hlt
    rw [halerts]
    exact decideLoop_suppressed place quiet now hasToken recips oracle k T
      eligible st hget hlt
  · intro hge hocc
    rw [halerts]
    refine decideLoop_allowed place quiet now hasToken recips oracle k
      eligible st ?_ hocc
    unfold quietSkip
    rw [hget]
    simp
    omega

theorem claim_C2_witness :
    "P:ABC1" ∉ scopedKeys "P"
      (runDecide "P" 600 1000 true ["c"] oracleOk [eligW1]
        [("P:ABC1", 401)]).alerts :=
  (claim_C2 "P" 600 1000 true ["c"] oracleOk [eligW1] [("P:ABC1", 401)]
    "P:ABC1" 401 (by decide)).1 (by decide)

/-- C3: a run produces a summary iff no individual alert fired and the
eligible list is non-empty; the summary is built from the full eligible
list: its count is the eligible count, it shows the first (at most) six
entries, and it carries a remainder of `eligibleCount - 6` exactly when
more than six were eligible. -/
theorem claim_C3 (place : String) (quiet now : ℤ) (hasToken : Bool)
    (recips : List String) (oracle : Elig → String → Except String Unit)
    (eligible : List Elig) (st : AlertState) :
    ((runDecide place quiet now hasToken recips oracle eligible
        st).summary.isSome ↔
      ((runDecide place quiet now hasToken recips oracle eligible
          st).alerted = 0 ∧ eligible ≠ [])) ∧
    (∀ s, (runDecide place quiet now hasToken recips oracle eligible
        st).summary = some s →
      s.count = eligible.length ∧
      s.shown = (eligible.take 6).map
        (fun e => ((identify e.ac).1, e.dist, e.alt)) ∧
      s.shown.length ≤ 6 ∧
      s.extra = (if 6 < eligible.length then some (eligible.length - 6)
                 else none)) := by
  have halerted : (runDecide place quiet now hasToken recips oracle eligible
      st).alerted
      = (decideLoop place quiet now hasToken recips oracle eligible
          st).alerted := rfl
  have hsum : (runDecide place quiet now hasToken recips oracle eligible
      st).summary
      = if (decideLoop place quiet now hasToken recips oracle eligible
            st).alerted = 0 then
          (match eligible with
           | [] => none
           | e0 :: _ => some (mkSummary eligible e0))
        else none := rfl
  by_cases h0 : (decideLoop place quiet now hasToken recips oracle eligible
      st).alerted = 0
  · cases eligible with
    | nil =>
      rw [halerted, hsum, if_pos h0]
      simp
    | cons e0 tail =>
      rw [halerted, hsum, if_pos h0]
      constructor
      · simp [h0]
      · intro s hs
        have hse : s = mkSummary (e0 :: tail) e0 := by
          simpa using hs.symm
        subst hse
        refine ⟨rfl, rfl, ?_, rfl⟩
        simp only [mkSummary, List.length_map, List.length_take]
        omega
  · rw [halerted, hsum, if_neg h0]
    simp [h0]

theorem claim_C3_witness :
    (mkSummary elig7 ⟨1, 300, acW⟩).count = elig7.length ∧
    (mkSummary elig7 ⟨1, 300, acW⟩).extra
      = (if 6 < elig7.length then some (elig7.length - 6) else none) := by
  have h := (claim_C3 "P" 600 1000 true ["c"] oracleOk elig7
    [("P:ABC1", 1000)]).2 (mkSummary elig7 ⟨1, 300, acW⟩) rfl
  exact ⟨h.1, h.2.2.2⟩

/-- C4: the individual-alert state mutation survives delivery failures:
the whole run outcome (state, counter, alerts, summary) is the same for
any two delivery oracles, and every key that fired an alert is mapped to
`now` in the final state. -/
theorem claim_C4 (place : String) (quiet now : ℤ) (hasToken : Bool)
    (recips : List String)
    (o1 o2 : Elig → String → Except String Unit)
    (eligible : List Elig) (st : AlertState) (k : String) :
    runDecide place quiet now hasToken recips o1 eligible st
      = runDecide place quiet now hasToken recips o2 eligible st ∧
    (k ∈ scopedKeys place
        (runDecide place quiet now hasToken recips o1 eligible st).alerts →
      dictGet (runDecide place quiet now hasToken recips o1 eligible
        st).state k = some now) := by
  constructor
  · unfold runDecide
    rw [decideLoop_oracle_indep place quiet now hasToken recips o1 o2
      eligible st]
  · intro hmem
    exact decideLoop_alerts_state place quiet now hasToken recips o1 k
      eligible st hmem

theorem claim_C4_witness :
    dictGet (runDecide "P" 600 1000 true ["c"] oracleFail [eligW1]
      []).state "P:ABC1" = some 1000 :=
  (claim_C4 "P" 600 1000 true ["c"] oracleFail oracleOk [eligW1] []
    "P:ABC1").2 (by decide)

/-- C5: when several eligible entries share a scoped key that is not
suppressed at run start, the first such entry fires an individual alert,
the key is recorded immediately, and (with a positive quiet period) no
key fires twice within the run — so the duplicate fires exactly once. -/
theorem claim_C5 (place : String) (quiet now : ℤ) (hasToken : Bool)
    (recips : List String) (oracle : Elig → String → Except String Unit)
    (st : AlertState) (pre : List Elig) (e1 : Elig) (rest : List Elig)
    (hquiet : 0 < quiet)
    (hpre : ∀ p ∈ pre, scopedKey place p ≠ scopedKey place e1)
    (hallow : quietSkip quiet now st (scopedKey place e1) = false) :
    (scopedKeys place
      (runDecide place quiet now hasToken recips oracle (pre ++ e1 :: rest)
        st).alerts).Nodup ∧
    e1 ∈ (runDecide place quiet now hasToken recips oracle
      (pre ++ e1 :: rest) st).alerts ∧
    (scopedKeys place
      (runDecide place quiet now hasToken recips oracle (pre ++ e1 :: rest)
        st).alerts).count (scopedKey place e1) = 1 := by
  have halerts : (runDecide place quiet now hasToken recips oracle
      (pre ++ e1 :: rest) st).alerts
      = (decideLoop place quiet now hasToken recips oracle
          (pre ++ e1 :: rest) st).alerts := rfl
  have hnodup := decideLoop_nodup place quiet now hasToken recips oracle
    hquiet (pre ++ e1 :: rest) st
  have hfirst := decideLoop_first_alerts place quiet now hasToken recips
    oracle e1 pre rest st hpre hallow
  refine ⟨by rw [halerts]; exact hnodup, by rw [halerts]; exact hfirst, ?_⟩
  rw [halerts]
  exact List.count_eq_one_of_mem hnodup
    (by simpa [scopedKeys] using ⟨e1, hfirst, rfl⟩)

theorem claim_C5_witness :
    (scopedKeys "P"
      (runDecide "P" 600 1000 true ["c"] oracleOk ([] ++ eligW1 :: [eligW1b])
        []).alerts).count (scopedKey "P" eligW1) = 1 :=
  (claim_C5 "P" 600 1000 true ["c"] oracleOk [] [] eligW1 [eligW1b]
    (by decide) (by simp) (by decide)).2.2

/-- C6: the eligible list of a run is sorted in non-decreasing distance
order, and the head of a non-empty eligible list is the aircraft the
summary's photo and links are built from. -/
theorem claim_C6 (hav : ℚ → ℚ → ℚ → ℚ → ℚ) (place : String)
    (clat clon : ℚ) (hasToken : Bool) (recips : List String)
    (oracle : Elig → String → Except String Unit) (aircraft : List AC)
    (st : AlertState) (now : ℤ) :
    List.Pairwise (fun a b : Elig => a.dist ≤ b.dist)
      (run_eligible hav clat clon aircraft) ∧
    (∀ e0 tail s, run_eligible hav clat clon aircraft = e0 :: tail →
      (run_once_core hav place clat clon hasToken recips oracle aircraft st
        now).summary = some s →
      s.nearest = e0.ac) := by
  constructor
  · have hs := @List.sorted_mergeSort Elig
      (fun a b : Elig => decide (a.dist ≤ b.dist))
      (fun a b c hab hbc => by
        simp only [decide_eq_true_eq] at hab hbc ⊢
        exact le_trans hab hbc)
      (fun a b => by
        simp only [Bool.or_eq_true, decide_eq_true_eq]
        exact le_total a.dist b.dist)
      (eligibleFilter hav clat clon RADIUS_KM ALT_THRESHOLD_M aircraft)
    exact hs.imp (fun h => of_decide_eq_true h)
  · intro e0 tail s heq hsum
    have hcore : (run_once_core hav place clat clon hasToken recips oracle
        aircraft st now).summary
        = (runDecide place (QUIET_MINUTES * 60) now hasToken recips oracle
            (run_eligible hav clat clon aircraft) st).summary := rfl
    rw [hcore, heq] at hsum
    have hsum2 : (runDecide place (QUIET_MINUTES * 60) now hasToken recips
        oracle (e0 :: tail) st).summary
        = if (decideLoop place (QUIET_MINUTES * 60) now hasToken recips
              oracle (e0 :: tail) st).alerted = 0 then
            some (mkSummary (e0 :: tail) e0)
          else none := rfl
    rw [hsum2] at hsum
    split_ifs at hsum
    have hse : s = mkSummary (e0 :: tail) e0 := by simpa using hsum.symm
    rw [hse]
    rfl

theorem claim_C6_witness :
    (mkSummary [eligN, eligM] eligN).nearest = eligN.ac := by
  have heq : run_eligible havW 0 0 [acM, acN] = eligN :: [eligM] := by
    simp only [run_eligible, eligibleFilter, List.filterMap_cons,
      List.filterMap_nil, eligCheck, get_altitude_m, feet_to_m, acM, acN,
      havW, RADIUS_KM, ALT_THRESHOLD_M]
    norm_num [List.mergeSort, eligN, eligM, acM, acN]
  have hsum : (run_once_core havW "P" 0 0 true ["c"] oracleOk [acM, acN]
      stC6 1000).summary = some (mkSummary [eligN, eligM] eligN) := by
    rw [show (run_once_core havW "P" 0 0 true ["c"] oracleOk [acM, acN]
        stC6 1000).summary
        = (runDecide "P" 600 1000 true ["c"] oracleOk
            (run_eligible havW 0 0 [acM, acN]) stC6).summary from rfl, heq]
    rfl
  exact (claim_C6 havW "P" 0 0 true ["c"] oracleOk [acM, acN] stC6
    1000).2 eligN [eligM] (mkSummary [eligN, eligM] eligN) heq hsum

/-- C7: loading the state never fails: a missing file and an unreadable
top-level structure both yield the empty state, and a mapping loads
exactly its well-formed entries, silently dropping every entry whose
timestamp does not parse. -/
theorem claim_C7 :
    load_state FileContent.missing = [] ∧
    load_state FileContent.corrupt = [] ∧
    ∀ (raw : List (String × String)) (k : String) (d : DT),
      ((k, d) ∈ load_state (FileContent.mapping raw) ↔
        ∃ v, (k, v) ∈ raw ∧ fromisoformat v = some d) := by
  refine ⟨rfl, rfl, ?_⟩
  intro raw k d
  rw [load_state, List.mem_filterMap]
  constructor
  · rintro ⟨⟨k', v⟩, hkv, hf⟩
    rcases hv : fromisoformat v with _ | d'
    · rw [hv] at hf
      simp at hf
    · rw [hv] at hf
      simp only [Option.map_some] at hf
      have hk : k' = k := congrArg Prod.fst (Option.some.inj hf)
      have hd : d' = d := congrArg Prod.snd (Option.some.inj hf)
      subst hk
      subst hd
      exact ⟨v, hkv, hv⟩
  · rintro ⟨v, hkv, hv⟩
    exact ⟨(k, v), hkv, by rw [hv]; rfl⟩

theorem claim_C7_witness :
    ("k", dtUTC) ∈ load_state (FileContent.mapping
      [("k", "2024-01-01T00:00:00+00:00"), ("bad", "not-a-date")]) :=
  (claim_C7.2.2 [("k", "2024-01-01T00:00:00+00:00"), ("bad", "not-a-date")]
    "k" dtUTC).mpr ⟨"2024-01-01T00:00:00+00:00", by simp, by rfl⟩

/-- C8: saving a state whose timestamps are valid tz-aware datetimes and
loading it back yields the identical mapping. -/
theorem claim_C8 : ∀ (st : List (String × DT)),
    (∀ kv ∈ st, (kv.2).validAware = true) →
    load_state (save_state st) = st := by
  intro st
  induction st with
  | nil => intro _; rfl
  | cons kv rest ih =>
    intro h
    have hkv : (kv.2).validAware = true := h kv (List.mem_cons_self _ _)
    have hrest : ∀ q ∈ rest, (q.2).validAware = true :=
      fun q hq => h q (List.mem_cons_of_mem _ hq)
    show ((kv :: rest).map (fun q => (q.1, isoformat q.2))).filterMap
      (fun q => (fromisoformat q.2).map (fun d => (q.1, d))) = kv :: rest
    have htail : (rest.map (fun q => (q.1, isoformat q.2))).filterMap
        (fun q => (fromisoformat q.2).map (fun d => (q.1, d))) = rest :=
      ih hrest
    rw [List.map_cons, List.filterMap_cons]
    simp only [fromisoformat_isoformat kv.2 hkv, Option.map_some]
    rw [htail]
    simp

theorem claim_C8_witness :
    load_state (save_state stateW) = stateW :=
  claim_C8 stateW (by decide)

/-- C9: captions of at most 1024 characters pass through unchanged;
longer captions are truncated to at most 1024 characters and end in a
visible ellipsis. -/
theorem claim_C9 (c : String) :
    (c.data.length ≤ 1024 → truncate_caption c 1024 = c) ∧
    (1024 < c.data.length →
      (truncate_caption c 1024).data.length ≤ 1024 ∧
      (truncate_caption c 1024).data.getLast? = some '…') := by
  constructor
  · intro hle
    unfold truncate_caption
    rw [if_neg (fun hcon => absurd hcon.2 (by omega))]
  · intro hgt
    unfold truncate_caption
    rw [if_pos ⟨List.length_pos.mp (by omega), hgt⟩]
    constructor
    · show (c.data.take 1023 ++ ['…']).length ≤ 1024
      rw [List.length_append, List.length_take, List.length_singleton]
      omega
    · exact List.getLast?_concat _

theorem claim_C9_witness :
    (truncate_caption bigCaption 1024).data.length ≤ 1024 ∧
    (truncate_caption bigCaption 1024).data.getLast? = some '…' :=
  (claim_C9 bigCaption).2
    (by show (1024 : ℕ) < (List.replicate 1025 'a').length
        rw [List.length_replicate]
        norm_num)

/-- C10: whatever the environment provides, the recipient list contains
the hard-coded chat id, has no duplicates, and preserves the
first-occurrence order of primary id, hard-coded id, then extras. -/
theorem claim_C10 (chatId : Option String) (extraRaw : String) :
    "5278987817" ∈ telegram_recipients chatId extraRaw ∧
    (telegram_recipients chatId extraRaw).Nodup ∧
    (telegram_recipients chatId extraRaw).Sublist
      (rawRecipients chatId extraRaw) := by
  refine ⟨?_, dedupFirst_nodup _ _, dedupFirst_sublist _ _⟩
  refine dedupFirst_mem _ _ _ ?_ (by simp)
  simp [rawRecipients]

theorem claim_C10_witness :
    "5278987817" ∈ telegram_recipients (some "123") "99, 5278987817" :=
  (claim_C10 (some "123") "99, 5278987817").1

end Salvo
